import Mathlib

/-!
Verification of the Macro Manager daily-aggregation core.

Shallow embedding of the TypeScript source (src/unnamed/part_005 — the App
component — together with src/unnamed/part_002 (types), and
src/components/AddFoodForm.tsx).  JavaScript numbers are modelled as exact
rationals (ℚ), date strings and identities as `String`, timestamps as `Int`.
Optional fields of TypeScript interfaces are modelled as `Option`.
-/

/-- `Macros` from part_002: calories, protein, fiber, carbs, fat with an
optional sugar field. -/
structure Macros where
  calories : ℚ
  protein : ℚ
  fiber : ℚ
  carbs : ℚ
  fat : ℚ
  sugar : Option ℚ
deriving DecidableEq

/-- `FoodEntry` from part_002: extends `Macros` with id, name, timestamp,
date (YYYY-MM-DD string) and the optional isFavorite flag. -/
structure FoodEntry extends Macros where
  id : String
  name : String
  timestamp : Int
  date : String
  isFavorite : Option Bool
deriving DecidableEq

/-- `ActivityEntry`: id, name, caloriesBurned, date, timestamp.  The
caloriesBurned value is an integer (the form stores `parseInt` output). -/
structure ActivityEntry where
  id : String
  name : String
  caloriesBurned : Int
  date : String
  timestamp : Int
deriving DecidableEq

/-- `DailyLog` as built by `dailyLogs` in part_005 lines 81-89: date, the
food entries and activities of that date, their summed caloriesBurned and
summed nutrient totals. -/
structure DailyLog where
  date : String
  entries : List FoodEntry
  activities : List ActivityEntry
  caloriesBurned : Int
  totals : Macros
deriving DecidableEq

/-- The all-zero totals each log starts from (part_005 line 87); the sugar
field is initialised to 0, not absent. -/
def zeroTotals : Macros :=
  { calories := 0, protein := 0, fiber := 0, carbs := 0, fat := 0, sugar := some 0 }

/-- One accumulation step of part_005 lines 94-99: add a food entry's
nutrients onto running totals.  `totals.sugar = (totals.sugar || 0) +
(entry.sugar || 0)` is modelled with `Option.getD 0` (an absent sugar
contributes 0). -/
def addEntryTotals (t : Macros) (e : FoodEntry) : Macros :=
  { calories := t.calories + e.calories
  , protein := t.protein + e.protein
  , fiber := t.fiber + e.fiber
  , carbs := t.carbs + e.carbs
  , fat := t.fat + e.fat
  , sugar := some (t.sugar.getD 0 + e.sugar.getD 0) }

/-- part_005 lines 91-101: push `e` onto the log keyed by `e.date` and
accumulate its nutrients; a log with a different date is unchanged. -/
def logAddFood (e : FoodEntry) (log : DailyLog) : DailyLog :=
  if e.date = log.date then
    { log with entries := log.entries ++ [e], totals := addEntryTotals log.totals e }
  else log

/-- part_005 lines 103-108: push an activity onto the log keyed by its date
and accumulate caloriesBurned. -/
def logAddActivity (a : ActivityEntry) (log : DailyLog) : DailyLog :=
  if a.date = log.date then
    { log with activities := log.activities ++ [a]
             , caloriesBurned := log.caloriesBurned + a.caloriesBurned }
  else log

/-- The per-entry pass of part_005 lines 91-101 over the whole log table
(the JS object holds one log per distinct date, so updating the matching
log is a map over the table). -/
def applyEntry (logs : List DailyLog) (e : FoodEntry) : List DailyLog :=
  logs.map (logAddFood e)

/-- The per-activity pass of part_005 lines 103-108. -/
def applyActivity (logs : List DailyLog) (a : ActivityEntry) : List DailyLog :=
  logs.map (logAddActivity a)

/-- One insertion into a JS `Set` (first occurrence kept, insertion order
preserved), used for `new Set([...entries.map(e => e.date), ...])` at
part_005 line 79. -/
def jsSetInsert (acc : List String) (d : String) : List String :=
  if d ∈ acc then acc else acc ++ [d]

/-- part_005 line 79: the distinct dates of both collections, in first
occurrence order (food entry dates first, then activity dates). -/
def allDates (entries : List FoodEntry) (activities : List ActivityEntry) : List String :=
  (entries.map (fun e => e.date) ++ activities.map (fun a => a.date)).foldl jsSetInsert []

/-- part_005 lines 82-88: the empty log created for each distinct date. -/
def emptyLog (d : String) : DailyLog :=
  { date := d, entries := [], activities := [], caloriesBurned := 0, totals := zeroTotals }

/-- The comparator of part_005 line 111, `a.date.localeCompare(b.date)`:
for ASCII YYYY-MM-DD date strings this is the lexicographic string order. -/
def dateLe (a b : DailyLog) : Bool := decide (a.date ≤ b.date)

/-- `dailyLogs` of part_005 lines 75-112: build one empty log per distinct
date, accumulate every food entry and every activity into the log of its
date, and sort the table ascending by date (a stable sort; the comparator
never ties since dates are distinct). -/
def dailyLogs (entries : List FoodEntry) (activities : List ActivityEntry) : List DailyLog :=
  ((activities.foldl applyActivity
      (entries.foldl applyEntry ((allDates entries activities).map emptyLog)))).mergeSort dateLe

/-- Field-wise sum of the nutrients of a list of food entries, an absent
sugar contributing 0 (the spec's "field-wise sum of nutrients", §3/§8). -/
def sumNutrients (l : List FoodEntry) : Macros :=
  { calories := (l.map (fun e => e.calories)).sum
  , protein := (l.map (fun e => e.protein)).sum
  , fiber := (l.map (fun e => e.fiber)).sum
  , carbs := (l.map (fun e => e.carbs)).sum
  , fat := (l.map (fun e => e.fat)).sum
  , sugar := some ((l.map (fun e => e.sugar.getD 0)).sum) }

/-- Sum of caloriesBurned over a list of activities. -/
def sumCaloriesBurned (l : List ActivityEntry) : Int :=
  (l.map (fun a => a.caloriesBurned)).sum

/-- The value `dailyLogs` produces for one date: the order-preserving
filters of both inputs and their field-wise sums. -/
def mkLog (d : String) (entries : List FoodEntry) (activities : List ActivityEntry) : DailyLog :=
  { date := d
  , entries := entries.filter (fun e => e.date = d)
  , activities := activities.filter (fun a => a.date = d)
  , caloriesBurned := sumCaloriesBurned (activities.filter (fun a => a.date = d))
  , totals := sumNutrients (entries.filter (fun e => e.date = d)) }

/-- `toggleFavorite` of part_005 lines 159-167: if a favorite with the
record's name exists, filter out every favorite of that name; otherwise
append `{ ...entry, id: 'fav-' + Date.now(), isFavorite: true }` — an object
spread, so every field of the record (date and timestamp included) is
copied and only id and isFavorite are overridden.  The generated id is a
parameter (`freshId`). -/
def toggleFavorite (favorites : List FoodEntry) (entry : FoodEntry) (freshId : String) :
    List FoodEntry :=
  match favorites.find? (fun f => f.name = entry.name) with
  | some _ => favorites.filter (fun f => f.name ≠ entry.name)
  | none => favorites ++ [{ entry with id := freshId, isFavorite := some true }]

/-- `MacroKey` from part_002: the six nutrient-field identifiers. -/
inductive MacroKey where
  | calories
  | protein
  | fiber
  | carbs
  | fat
  | sugar
deriving DecidableEq

/-- `toggleGraphMacro` of part_005 lines 169-179: remove a present key
unless the selection would become empty-bounded (length must stay > 1 to
remove), append an absent key unless the selection already has 4. -/
def toggleGraphMacro (visibleMacros : List MacroKey) (key : MacroKey) : List MacroKey :=
  if key ∈ visibleMacros then
    if 1 < visibleMacros.length then visibleMacros.filter (fun k => k ≠ key)
    else visibleMacros
  else
    if visibleMacros.length < 4 then visibleMacros ++ [key]
    else visibleMacros

/-- A save operation on a collection: a create-save (append the candidate,
part_005 line 133 / 145) or an edit-save (replace the record whose id
matches the candidate's id, part_005 line 130 / 142). -/
inductive SaveOp (α : Type) where
  | create : α → SaveOp α
  | edit : α → SaveOp α

/-- `handleSaveFood` / `handleSaveActivity` of part_005 lines 127-149,
parametrised by the identity projection so it covers both collections. -/
def applySave {α : Type} (getId : α → String) (coll : List α) : SaveOp α → List α
  | SaveOp.create e => coll ++ [e]
  | SaveOp.edit e => coll.map (fun x => if getId x = getId e then e else x)

/-- A sequence of save operations applied in order. -/
def applySaves {α : Type} (getId : α → String) (coll : List α) (ops : List (SaveOp α)) :
    List α :=
  ops.foldl (applySave getId) coll

/-- Freshness of generated identities along a run: each create-save's
candidate id differs from every id already in the collection (the model of
`generateId`, AddFoodForm.tsx line 6, producing unused ids). -/
def FreshAlong {α : Type} (getId : α → String) : List α → List (SaveOp α) → Prop
  | _, [] => True
  | coll, op :: rest =>
      (match op with
       | SaveOp.create e => ∀ x ∈ coll, getId x ≠ getId e
       | SaveOp.edit _ => True) ∧
      FreshAlong getId (applySave getId coll op) rest

/-- The `previewResult.macros` object of AddFoodForm.tsx.  When the preview
was seeded from an existing record (`initialData` or `initialValues`,
lines 23-29) the macros object IS that record, so beside the nutrient
fields it carries the record's own id, name, date, timestamp and
isFavorite properties; when it came from the AI analysis it carries the
nutrient fields only.  Absent properties are `none`. -/
structure MacrosObj where
  calories : ℚ
  protein : ℚ
  fiber : ℚ
  carbs : ℚ
  fat : ℚ
  sugar : Option ℚ
  id : Option String
  name : Option String
  date : Option String
  timestamp : Option Int
  isFavorite : Option Bool
deriving DecidableEq

/-- The macros object obtained by using a whole `FoodEntry` as the preview
macros (AddFoodForm.tsx lines 24-28): every property is present. -/
def macrosOfEntry (e : FoodEntry) : MacrosObj :=
  { calories := e.calories, protein := e.protein, fiber := e.fiber
  , carbs := e.carbs, fat := e.fat, sugar := e.sugar
  , id := some e.id, name := some e.name, date := some e.date
  , timestamp := some e.timestamp, isFavorite := e.isFavorite }

/-- `previewResult`: a name and the macros object. -/
structure PreviewResult where
  name : String
  macros : MacrosObj
deriving DecidableEq

/-- `handleSave` of AddFoodForm.tsx lines 79-101.  The object literal is
`{ id: initialData?.id || generateId(), name: previewResult.name,
...previewResult.macros, date: ..., timestamp: ..., isFavorite: ... }`:
the spread comes after the id and name keys, so an id or name property
present on the macros object overrides them; date, timestamp and
isFavorite come after the spread and win unconditionally.  `generateId`'s
random output is the parameter `genId`, `Date.now()` is `now`, and the
form's local-today fallback is `today`. -/
def buildNewEntry (initialData : Option FoodEntry) (preview : PreviewResult)
    (selectedDate : Option String) (genId : String) (now : Int) (today : String) :
    FoodEntry :=
  { id := preview.macros.id.getD (match initialData with
      | some e => e.id
      | none => genId)
  , name := preview.macros.name.getD preview.name
  , calories := preview.macros.calories
  , protein := preview.macros.protein
  , fiber := preview.macros.fiber
  , carbs := preview.macros.carbs
  , fat := preview.macros.fat
  , sugar := preview.macros.sugar
  , date := match initialData with
      | some e => e.date
      | none => selectedDate.getD today
  , timestamp := match initialData with
      | some e => e.timestamp
      | none => now
  , isFavorite := some (match initialData with
      | some e => e.isFavorite.getD false
      | none => false) }

/-- Instantiating a food entry from a favorite: `startAddFromFavorite`
(part_005 lines 181-185) opens the add form with `initialValues := fav`
and `selectedDate := viewDate`, whose preview is
`{ name: fav.name, macros: fav }`, then `handleSave` builds the entry with
`initialData = none`. -/
def instantiateFromFavorite (fav : FoodEntry) (selectedDate : Option String)
    (genId : String) (now : Int) (today : String) : FoodEntry :=
  buildNewEntry none ⟨fav.name, macrosOfEntry fav⟩ selectedDate genId now today

/-- A favorites collection reachable from the empty collection by
`toggleFavorite` steps (each step with some record and some generated id). -/
inductive ReachableFavs : List FoodEntry → Prop
  | nil : ReachableFavs []
  | step (favs : List FoodEntry) (entry : FoodEntry) (freshId : String) :
      ReachableFavs favs → ReachableFavs (toggleFavorite favs entry freshId)

/-- A calendar date as year, month, day (the fields of a JS `Date` read in
local time: `getFullYear`, `getMonth() + 1`, `getDate`). -/
structure YMD where
  y : Int
  m : Nat
  d : Nat
deriving DecidableEq

/-- The Gregorian leap-year rule (as ECMA-262's DaysInYear). -/
def isLeap (y : Int) : Bool :=
  y % 4 == 0 && (y % 100 != 0 || y % 400 == 0)

/-- Days in a month of a year (ECMA-262 DaysInMonth). -/
def daysInMonth (y : Int) (m : Nat) : Nat :=
  if m = 2 then (if isLeap y then 29 else 28)
  else if m = 4 ∨ m = 6 ∨ m = 9 ∨ m = 11 then 30
  else 31

/-- A valid calendar date: month 1-12 and day within the month. -/
def ValidYMD (c : YMD) : Prop :=
  1 ≤ c.m ∧ c.m ≤ 12 ∧ 1 ≤ c.d ∧ c.d ≤ daysInMonth c.y c.m

instance (c : YMD) : Decidable (ValidYMD c) := by
  unfold ValidYMD
  infer_instance

/-- `d.setDate(d.getDate() + i)` (part_005 lines 187-191 and 315-318):
ECMA-262 setDate normalises the day-of-month through MakeDay, rolling into
the previous or the next month when the day falls outside 1..daysInMonth.
For the offsets the source uses (|i| ≤ 2) at most one month boundary is
crossed, which this definition handles exactly. -/
def setDateAdd (c : YMD) (i : Int) : YMD :=
  if (c.d : Int) + i < 1 then
    if c.m = 1 then
      ⟨c.y - 1, 12, ((daysInMonth (c.y - 1) 12 : Int) + ((c.d : Int) + i)).toNat⟩
    else
      ⟨c.y, c.m - 1, ((daysInMonth c.y (c.m - 1) : Int) + ((c.d : Int) + i)).toNat⟩
  else if (daysInMonth c.y c.m : Int) < (c.d : Int) + i then
    if c.m = 12 then
      ⟨c.y + 1, 1, (((c.d : Int) + i) - (daysInMonth c.y c.m : Int)).toNat⟩
    else
      ⟨c.y, c.m + 1, (((c.d : Int) + i) - (daysInMonth c.y c.m : Int)).toNat⟩
  else ⟨c.y, c.m, ((c.d : Int) + i).toNat⟩

/-- The calendar-day successor, written directly from the calendar rules
(the spec's "exactly one calendar day after", §4.4): next day in the same
month, else first day of the next month, else January 1 of the next
year. -/
def nextDay (c : YMD) : YMD :=
  if c.d < daysInMonth c.y c.m then ⟨c.y, c.m, c.d + 1⟩
  else if c.m < 12 then ⟨c.y, c.m + 1, 1⟩
  else ⟨c.y + 1, 1, 1⟩

/-- Two-digit zero padding, `String(n).padStart(2, '0')`. -/
def pad2 (n : Nat) : String :=
  if n < 10 then "0" ++ toString n else toString n

/-- `getLocalYMD` of part_005 lines 8-14: the `${year}-${month}-${day}`
string with two-digit month and day. -/
def getLocalYMD (c : YMD) : String :=
  toString c.y ++ "-" ++ pad2 c.m ++ "-" ++ pad2 c.d

/-- The 5-day date strip of part_005 lines 311-319: for i from -2 to 2,
the local YMD string of the view date shifted by i calendar days. -/
def dateWindow (c : YMD) : List String :=
  (List.range 5).map (fun k : Nat => getLocalYMD (setDateAdd c ((k : Int) - 2)))

/-- Sample record: the spec's Apple scenario entry (§8), first copy. -/
def appleA : FoodEntry :=
  { id := "a1", name := "Apple", calories := 95, protein := 1, fiber := 4
  , carbs := 25, fat := 1, sugar := some 19, timestamp := 100
  , date := "2024-01-01", isFavorite := none }

/-- Sample record: the spec's Apple scenario entry, second copy. -/
def appleB : FoodEntry :=
  { id := "a2", name := "Apple", calories := 95, protein := 1, fiber := 4
  , carbs := 25, fat := 1, sugar := some 19, timestamp := 200
  , date := "2024-01-01", isFavorite := none }

/-- Sample activity for the C10 witness. -/
def runActivity : ActivityEntry :=
  { id := "r1", name := "Run", caloriesBurned := 300, date := "2024-01-01"
  , timestamp := 150 }

/-- Sample favorite record (id "fav-1") used for the C2/C3 failing inputs. -/
def appleFav : FoodEntry :=
  { id := "fav-1", name := "Apple", calories := 95, protein := 1, fiber := 4
  , carbs := 25, fat := 1, sugar := some 19, timestamp := 100
  , date := "2024-01-01", isFavorite := some true }

/-! ### Characterisation of `dailyLogs` -/

theorem foldl_map_update {α β : Type} (g : β → α → α) (l : List β) (xs : List α) :
    l.foldl (fun acc e => acc.map (g e)) xs = xs.map (fun x => l.foldl (fun y e => g e y) x) := by
  induction l generalizing xs with
  | nil => simp
  | cons e t ih =>
    rw [List.foldl_cons, ih, List.map_map]
    rfl

theorem foldl_applyEntry (es : List FoodEntry) (logs : List DailyLog) :
    es.foldl applyEntry logs = logs.map (fun log => es.foldl (fun l e => logAddFood e l) log) :=
  foldl_map_update logAddFood es logs

theorem foldl_applyActivity (as : List ActivityEntry) (logs : List DailyLog) :
    as.foldl applyActivity logs =
      logs.map (fun log => as.foldl (fun l a => logAddActivity a l) log) :=
  foldl_map_update logAddActivity as logs

theorem foldl_logAddFood (es : List FoodEntry) (log : DailyLog) :
    es.foldl (fun l e => logAddFood e l) log =
      { log with entries := log.entries ++ es.filter (fun e => e.date = log.date)
               , totals := (es.filter (fun e => e.date = log.date)).foldl addEntryTotals log.totals } := by
  induction es generalizing log with
  | nil => simp
  | cons e t ih =>
    by_cases h : e.date = log.date
    · rw [List.foldl_cons]
      have hstep : logAddFood e log =
          { log with entries := log.entries ++ [e], totals := addEntryTotals log.totals e } := by
        simp [logAddFood, h]
      rw [hstep, ih]
      simp [List.filter_cons, h]
    · rw [List.foldl_cons]
      have hstep : logAddFood e log = log := by simp [logAddFood, h]
      rw [hstep, ih]
      simp [List.filter_cons, h]

theorem foldl_logAddActivity (as : List ActivityEntry) (log : DailyLog) :
    as.foldl (fun l a => logAddActivity a l) log =
      { log with activities := log.activities ++ as.filter (fun a => a.date = log.date)
               , caloriesBurned := log.caloriesBurned +
                   sumCaloriesBurned (as.filter (fun a => a.date = log.date)) } := by
  induction as generalizing log with
  | nil => simp [sumCaloriesBurned]
  | cons a t ih =>
    by_cases h : a.date = log.date
    · rw [List.foldl_cons]
      have hstep : logAddActivity a log =
          { log with activities := log.activities ++ [a]
                   , caloriesBurned := log.caloriesBurned + a.caloriesBurned } := by
        simp [logAddActivity, h]
      rw [hstep, ih]
      simp [List.filter_cons, h, sumCaloriesBurned, add_assoc]
    · rw [List.foldl_cons]
      have hstep : logAddActivity a log = log := by simp [logAddActivity, h]
      rw [hstep, ih]
      simp [List.filter_cons, h]

theorem foldl_addEntryTotals (l : List FoodEntry) :
    ∀ c p f cb ft s : ℚ,
      l.foldl addEntryTotals ⟨c, p, f, cb, ft, some s⟩ =
        ⟨c + (l.map (fun e => e.calories)).sum,
         p + (l.map (fun e => e.protein)).sum,
         f + (l.map (fun e => e.fiber)).sum,
         cb + (l.map (fun e => e.carbs)).sum,
         ft + (l.map (fun e => e.fat)).sum,
         some (s + (l.map (fun e => e.sugar.getD 0)).sum)⟩ := by
  induction l with
  | nil => intro c p f cb ft s; simp
  | cons e t ih =>
    intro c p f cb ft s
    rw [List.foldl_cons]
    have hstep : addEntryTotals ⟨c, p, f, cb, ft, some s⟩ e =
        ⟨c + e.calories, p + e.protein, f + e.fiber, cb + e.carbs, ft + e.fat,
         some (s + e.sugar.getD 0)⟩ := by
      simp [addEntryTotals]
    rw [hstep, ih]
    simp [add_assoc]

theorem foldl_addEntryTotals_zero (l : List FoodEntry) :
    l.foldl addEntryTotals zeroTotals = sumNutrients l := by
  have h := foldl_addEntryTotals l 0 0 0 0 0 0
  simpa [zeroTotals, sumNutrients] using h

theorem dailyLogs_eq (entries : List FoodEntry) (activities : List ActivityEntry) :
    dailyLogs entries activities =
      ((allDates entries activities).map (fun d => mkLog d entries activities)).mergeSort dateLe := by
  unfold dailyLogs
  congr 1
  rw [foldl_applyEntry, List.map_map, foldl_applyActivity, List.map_map]
  apply List.map_congr_left
  intro d _
  show activities.foldl (fun l a => logAddActivity a l)
      (entries.foldl (fun l e => logAddFood e l) (emptyLog d)) = mkLog d entries activities
  rw [foldl_logAddFood]
  rw [foldl_logAddActivity]
  simp [emptyLog, mkLog, foldl_addEntryTotals_zero]

theorem mem_foldl_jsSetInsert (l : List String) (acc : List String) (d : String) :
    d ∈ l.foldl jsSetInsert acc ↔ d ∈ acc ∨ d ∈ l := by
  induction l generalizing acc with
  | nil => simp
  | cons a t ih =>
    rw [List.foldl_cons, ih]
    by_cases h : a ∈ acc
    · simp only [jsSetInsert, if_pos h, List.mem_cons]
      constructor
      · rintro (h1 | h1)
        · exact Or.inl h1
        · exact Or.inr (Or.inr h1)
      · rintro (h1 | h1 | h1)
        · exact Or.inl h1
        · exact Or.inl (h1 ▸ h)
        · exact Or.inr h1
    · simp only [jsSetInsert, if_neg h, List.mem_append, List.mem_singleton, List.mem_cons]
      tauto

theorem nodup_foldl_jsSetInsert (l : List String) (acc : List String) (h : acc.Nodup) :
    (l.foldl jsSetInsert acc).Nodup := by
  induction l generalizing acc with
  | nil => simpa
  | cons a t ih =>
    rw [List.foldl_cons]
    apply ih
    by_cases hmem : a ∈ acc
    · simpa [jsSetInsert, hmem]
    · simp [jsSetInsert, hmem, List.nodup_append, h]

theorem mem_allDates (es : List FoodEntry) (as : List ActivityEntry) (d : String) :
    d ∈ allDates es as ↔ d ∈ es.map (fun e => e.date) ∨ d ∈ as.map (fun a => a.date) := by
  simp [allDates, mem_foldl_jsSetInsert]

theorem nodup_allDates (es : List FoodEntry) (as : List ActivityEntry) :
    (allDates es as).Nodup :=
  nodup_foldl_jsSetInsert _ _ List.nodup_nil

theorem dateLe_trans : ∀ a b c : DailyLog,
    dateLe a b = true → dateLe b c = true → dateLe a c = true := by
  intro a b c hab hbc
  simp only [dateLe, decide_eq_true_eq] at *
  exact le_trans hab hbc

theorem dateLe_total : ∀ a b : DailyLog, (dateLe a b || dateLe b a) = true := by
  intro a b
  simp only [dateLe, Bool.or_eq_true, decide_eq_true_eq]
  exact le_total a.date b.date

theorem mem_dailyLogs (es : List FoodEntry) (as : List ActivityEntry) (log : DailyLog) :
    log ∈ dailyLogs es as ↔ ∃ d, d ∈ allDates es as ∧ mkLog d es as = log := by
  rw [dailyLogs_eq, List.mem_mergeSort, List.mem_map]

theorem dailyLogs_map_date_perm (es : List FoodEntry) (as : List ActivityEntry) :
    ((dailyLogs es as).map (fun log => log.date)).Perm (allDates es as) := by
  have hperm : (dailyLogs es as).Perm ((allDates es as).map (fun d => mkLog d es as)) := by
    rw [dailyLogs_eq]
    exact List.mergeSort_perm _ _
  have h := hperm.map (fun log => log.date)
  rw [List.map_map] at h
  have hfun : ((fun log => log.date) ∘ fun d => mkLog d es as) = fun d : String => d := rfl
  rw [hfun] at h
  simpa using h

/-- Claim C1: every aggregate produced by `dailyLogs` has totals equal to
the field-wise sum (calories, protein, fiber, carbs, fat, sugar, an absent
sugar contributing 0) of the nutrients of exactly the food entries whose
date equals the aggregate's date, and of no other entries. -/
theorem C1_totals_fieldwise_sum (es : List FoodEntry) (as : List ActivityEntry)
    (log : DailyLog) (h : log ∈ dailyLogs es as) :
    log.totals = sumNutrients (es.filter (fun e => e.date = log.date)) := by
  rcases (mem_dailyLogs es as log).mp h with ⟨d, _, rfl⟩
  rfl

/-- Witness for C1 on the spec's Apple scenario (two entries dated
2024-01-01): the aggregate is in the output and its totals are the
field-wise sum of the filtered entries. -/
theorem C1_totals_fieldwise_sum_witness :
    mkLog "2024-01-01" [appleA, appleB] [] ∈ dailyLogs [appleA, appleB] [] ∧
    (mkLog "2024-01-01" [appleA, appleB] []).totals =
      sumNutrients ([appleA, appleB].filter
        (fun e => e.date = (mkLog "2024-01-01" [appleA, appleB] []).date)) := by
  have hmem : mkLog "2024-01-01" [appleA, appleB] [] ∈ dailyLogs [appleA, appleB] [] := by
    rw [dailyLogs_eq, List.mem_mergeSort]
    have hdates : allDates [appleA, appleB] [] = ["2024-01-01"] := rfl
    rw [hdates]
    simp only [List.map_cons, List.map_nil]
    exact List.mem_singleton.mpr rfl
  exact ⟨hmem, C1_totals_fieldwise_sum [appleA, appleB] [] _ hmem⟩

/-- Claim C10: the entries list of every aggregate is exactly the
order-preserving filter of the input food collection at the aggregate's
date, and likewise the activities list for the activity collection. -/
theorem C10_entries_order_preserving (es : List FoodEntry) (as : List ActivityEntry)
    (log : DailyLog) (h : log ∈ dailyLogs es as) :
    log.entries = es.filter (fun e => e.date = log.date) ∧
    log.activities = as.filter (fun a => a.date = log.date) := by
  rcases (mem_dailyLogs es as log).mp h with ⟨d, _, rfl⟩
  exact ⟨rfl, rfl⟩

/-- Witness for C10 at a concrete input with one food entry and one
activity on the same date. -/
theorem C10_entries_order_preserving_witness :
    mkLog "2024-01-01" [appleA] [runActivity] ∈ dailyLogs [appleA] [runActivity] ∧
    ((mkLog "2024-01-01" [appleA] [runActivity]).entries =
       [appleA].filter
         (fun e => e.date = (mkLog "2024-01-01" [appleA] [runActivity]).date) ∧
     (mkLog "2024-01-01" [appleA] [runActivity]).activities =
       [runActivity].filter
         (fun a => a.date = (mkLog "2024-01-01" [appleA] [runActivity]).date)) := by
  have hmem : mkLog "2024-01-01" [appleA] [runActivity] ∈ dailyLogs [appleA] [runActivity] := by
    rw [dailyLogs_eq, List.mem_mergeSort]
    have hdates : allDates [appleA] [runActivity] = ["2024-01-01"] := rfl
    rw [hdates]
    simp only [List.map_cons, List.map_nil]
    exact List.mem_singleton.mpr rfl
  exact ⟨hmem, C10_entries_order_preserving [appleA] [runActivity] _ hmem⟩

/-- Claim C6: the output of `dailyLogs` has exactly one aggregate per
distinct date occurring in either input (its dates are duplicate-free, and
a date appears among them exactly when some food entry or activity carries
it), and the output is sorted strictly ascending by the lexicographic
order of the date strings. -/
theorem C6_one_aggregate_per_date_sorted (es : List FoodEntry) (as : List ActivityEntry) :
    ((dailyLogs es as).map (fun log => log.date)).Nodup ∧
    (∀ d : String, d ∈ (dailyLogs es as).map (fun log => log.date) ↔
       d ∈ es.map (fun e => e.date) ∨ d ∈ as.map (fun a => a.date)) ∧
    (dailyLogs es as).Pairwise (fun a b => a.date < b.date) := by
  have hpermd := dailyLogs_map_date_perm es as
  have hnodup : ((dailyLogs es as).map (fun log => log.date)).Nodup :=
    (hpermd.nodup_iff).mpr (nodup_allDates es as)
  refine ⟨hnodup, ?_, ?_⟩
  · intro d
    rw [hpermd.mem_iff, mem_allDates]
  · have h1 : (dailyLogs es as).Pairwise (fun a b => dateLe a b = true) := by
      rw [dailyLogs_eq]
      exact List.sorted_mergeSort dateLe_trans dateLe_total _
    have h2 : (dailyLogs es as).Pairwise (fun a b => a.date ≠ b.date) :=
      List.pairwise_map.mp hnodup
    refine (h1.and h2).imp ?_
    intro a b hab
    have hle : a.date ≤ b.date := by
      have := hab.1
      simpa [dateLe] using this
    exact lt_of_le_of_ne hle hab.2

/-! ### Favorites reconciler -/

theorem favNames_nodup (favs : List FoodEntry) (h : ReachableFavs favs) :
    (favs.map (fun f => f.name)).Nodup := by
  induction h with
  | nil => simp
  | step favs entry freshId hrec ih =>
    cases hfind : favs.find? (fun f => f.name = entry.name) with
    | some f =>
      simp only [toggleFavorite, hfind]
      exact List.Nodup.sublist ((List.filter_sublist _).map _) ih
    | none =>
      have hnot : ∀ f ∈ favs, f.name ≠ entry.name := by
        intro f hf
        have := List.find?_eq_none.mp hfind f hf
        simpa using this
      simp only [toggleFavorite, hfind, List.map_append, List.map_cons, List.map_nil]
      rw [List.nodup_append]
      refine ⟨ih, List.nodup_singleton _, ?_⟩
      intro x hx hx1
      rcases List.mem_map.mp hx with ⟨f, hf, rfl⟩
      rcases List.mem_singleton.mp hx1 with h1
      exact hnot f hf h1

/-- Claim C5: every favorites collection reachable from the empty one by
`toggleFavorite` steps is duplicate-free by name, and toggling a name on
then off (with any record of that name and any generated ids) restores the
collection exactly. -/
theorem C5_favorites_nodup_restore (favs : List FoodEntry) (h : ReachableFavs favs)
    (e1 e2 : FoodEntry) (id1 id2 : String)
    (hname : e1.name = e2.name)
    (habs : e1.name ∉ favs.map (fun f => f.name)) :
    (favs.map (fun f => f.name)).Nodup ∧
    toggleFavorite (toggleFavorite favs e1 id1) e2 id2 = favs := by
  refine ⟨favNames_nodup favs h, ?_⟩
  have hnotin : ∀ f ∈ favs, f.name ≠ e1.name := by
    intro f hf hEq
    exact habs (List.mem_map.mpr ⟨f, hf, hEq⟩)
  have hfind1 : favs.find? (fun f => f.name = e1.name) = none := by
    rw [List.find?_eq_none]
    intro f hf
    simpa using hnotin f hf
  rw [show toggleFavorite favs e1 id1 =
        favs ++ [{ e1 with id := id1, isFavorite := some true }] by
      simp only [toggleFavorite, hfind1]]
  cases hfind2 : List.find? (fun f : FoodEntry => f.name = e2.name)
      (favs ++ [{ e1 with id := id1, isFavorite := some true }]) with
  | none =>
    exfalso
    have := List.find?_eq_none.mp hfind2 { e1 with id := id1, isFavorite := some true }
      (by simp)
    simp at this
    exact this hname
  | some f =>
    simp only [toggleFavorite, hfind2]
    rw [List.filter_append]
    have h1 : favs.filter (fun f => f.name ≠ e2.name) = favs := by
      rw [List.filter_eq_self]
      intro f hf
      simpa using fun hEq => hnotin f hf (hEq.trans hname.symm)
    have h2 : [{ e1 with id := id1, isFavorite := some true }].filter
        (fun f => f.name ≠ e2.name) = [] := by
      simp [hname]
    rw [h1, h2, List.append_nil]

/-- Witness for C5: starting from the empty (reachable) collection,
toggling "Apple" on then off returns the empty collection, which is
duplicate-free by name. -/
theorem C5_favorites_nodup_restore_witness :
    (([] : List FoodEntry).map (fun f => f.name)).Nodup ∧
    toggleFavorite (toggleFavorite [] appleA "f1") appleB "f2" = [] :=
  C5_favorites_nodup_restore [] ReachableFavs.nil appleA appleB "f1" "f2" rfl (by simp)

/-- Claim C4 (amended): on a name hit `toggleFavorite` removes the matching
favorites; otherwise it inserts one new favorite that carries the record's
name and nutrients with a freshly generated identity and the
favorite-origin flag set — and, unlike the claim's wording, it also carries
over the record's date and creation timestamp (the object spread copies
them); only the record's identity is replaced. -/
theorem C4_toggleFavorite_characterization (favs : List FoodEntry) (entry : FoodEntry)
    (freshId : String) :
    ((∃ f ∈ favs, f.name = entry.name) →
       toggleFavorite favs entry freshId = favs.filter (fun f => f.name ≠ entry.name)) ∧
    ((∀ f ∈ favs, f.name ≠ entry.name) →
       ∃ fav : FoodEntry,
         toggleFavorite favs entry freshId = favs ++ [fav] ∧
         fav.id = freshId ∧
         fav.name = entry.name ∧
         fav.isFavorite = some true ∧
         fav.toMacros = entry.toMacros ∧
         fav.date = entry.date ∧
         fav.timestamp = entry.timestamp) := by
  constructor
  · rintro ⟨f, hf, hfn⟩
    cases hfind : favs.find? (fun f => f.name = entry.name) with
    | none =>
      exfalso
      have := List.find?_eq_none.mp hfind f hf
      simp at this
      exact this hfn
    | some g =>
      simp only [toggleFavorite, hfind]
  · intro hall
    have hfind : favs.find? (fun f => f.name = entry.name) = none := by
      rw [List.find?_eq_none]
      intro f hf
      simpa using hall f hf
    refine ⟨{ entry with id := freshId, isFavorite := some true }, ?_, rfl, rfl, rfl, rfl,
      rfl, rfl⟩
    simp only [toggleFavorite, hfind]

/-- Counterexample to C4 as stated: toggling the Apple record (date
2024-01-01, timestamp 100) into an empty favorites collection produces a
favorite whose date and timestamp are the record's own — they ARE
copied. -/
theorem C4_favorite_copies_date_timestamp :
    (toggleFavorite [] appleA "fav-9").map (fun f => (f.id, f.date, f.timestamp)) =
      [("fav-9", "2024-01-01", 100)] := rfl

/-! ### Metric visibility policy -/

theorem length_filter_ne {α : Type} [DecidableEq α] (s : List α) (k : α)
    (hnd : s.Nodup) (hk : k ∈ s) :
    (s.filter (fun x => x ≠ k)).length + 1 = s.length := by
  induction s with
  | nil => cases hk
  | cons a t ih =>
    rw [List.nodup_cons] at hnd
    rcases List.mem_cons.mp hk with rfl | hkt
    · have hft : t.filter (fun x => x ≠ k) = t := by
        rw [List.filter_eq_self]
        intro x hx
        simp only [decide_eq_true_eq]
        intro hEq
        exact hnd.1 (hEq ▸ hx)
      rw [List.filter_cons, if_neg (by simp), hft, List.length_cons]
    · have hne : a ≠ k := fun hEq => hnd.1 (hEq ▸ hkt)
      have hih := ih hnd.2 hkt
      rw [List.filter_cons, if_pos (by simp [hne])]
      simp only [List.length_cons]
      omega

theorem not_mem_filter_ne {α : Type} [DecidableEq α] (s : List α) (k : α) :
    k ∉ s.filter (fun x => x ≠ k) := by
  intro hmem
  have := List.of_mem_filter hmem
  simp at this

theorem filter_ne_eq_self {α : Type} [DecidableEq α] (s : List α) (k : α) (hk : k ∉ s) :
    s.filter (fun x => x ≠ k) = s := by
  rw [List.filter_eq_self]
  intro x hx
  simp only [decide_eq_true_eq]
  intro hEq
  exact hk (hEq ▸ hx)

theorem perm_cons_filter_ne {α : Type} [DecidableEq α] (s : List α) (k : α)
    (hnd : s.Nodup) (hk : k ∈ s) :
    s.Perm (k :: s.filter (fun x => x ≠ k)) := by
  induction s with
  | nil => cases hk
  | cons a t ih =>
    rw [List.nodup_cons] at hnd
    rcases List.mem_cons.mp hk with rfl | hkt
    · rw [List.filter_cons, if_neg (by simp), filter_ne_eq_self t k hnd.1]
    · have hne : a ≠ k := fun hEq => hnd.1 (hEq ▸ hkt)
      have hperm := ih hnd.2 hkt
      rw [List.filter_cons, if_pos (by simp [hne])]
      exact (hperm.cons a).trans (List.Perm.swap k a _)

/-- Claim C8: on a duplicate-free selection of 1 to 4 keys, toggling keeps
the size within 1 to 4; adding to a 4-element selection is a no-op and
removing from a 1-element selection is a no-op. -/
theorem C8_toggle_size_bounds (s : List MacroKey) (k : MacroKey)
    (h1 : 1 ≤ s.length) (h4 : s.length ≤ 4) (hnd : s.Nodup) :
    (1 ≤ (toggleGraphMacro s k).length ∧ (toggleGraphMacro s k).length ≤ 4) ∧
    (s.length = 4 → k ∉ s → toggleGraphMacro s k = s) ∧
    (s.length = 1 → k ∈ s → toggleGraphMacro s k = s) := by
  by_cases hk : k ∈ s
  · by_cases hl : 1 < s.length
    · have hfl := length_filter_ne s k hnd hk
      have ht : toggleGraphMacro s k = s.filter (fun x => x ≠ k) := by
        simp only [toggleGraphMacro, if_pos hk, if_pos hl]
      rw [ht]
      refine ⟨⟨by omega, by omega⟩, ?_, ?_⟩
      · intro _ hk2
        exact absurd hk hk2
      · intro hlen _
        exfalso
        omega
    · have ht : toggleGraphMacro s k = s := by
        simp only [toggleGraphMacro, if_pos hk, if_neg hl]
      rw [ht]
      exact ⟨⟨h1, h4⟩, fun _ hk2 => absurd hk hk2, fun _ _ => rfl⟩
  · by_cases hl : s.length < 4
    · have ht : toggleGraphMacro s k = s ++ [k] := by
        simp only [toggleGraphMacro, if_neg hk, if_pos hl]
      rw [ht]
      refine ⟨⟨?_, ?_⟩, ?_, ?_⟩
      · simp only [List.length_append, List.length_singleton]
        omega
      · simp only [List.length_append, List.length_singleton]
        omega
      · intro hlen _
        exfalso
        omega
      · intro _ hk2
        exact absurd hk2 hk
    · have ht : toggleGraphMacro s k = s := by
        simp only [toggleGraphMacro, if_neg hk, if_neg hl]
      rw [ht]
      exact ⟨⟨h1, h4⟩, fun _ _ => rfl, fun _ hk2 => absurd hk2 hk⟩

/-- Witness for C8 at the initial selection {calories, protein, fiber} and
key carbs. -/
theorem C8_toggle_size_bounds_witness :
    1 ≤ (toggleGraphMacro [MacroKey.calories, MacroKey.protein, MacroKey.fiber]
          MacroKey.carbs).length ∧
    (toggleGraphMacro [MacroKey.calories, MacroKey.protein, MacroKey.fiber]
      MacroKey.carbs).length ≤ 4 :=
  (C8_toggle_size_bounds [MacroKey.calories, MacroKey.protein, MacroKey.fiber]
    MacroKey.carbs (by decide) (by decide) (by decide)).1

/-- Claim C9 (amended): toggling a key twice on a duplicate-free selection
of 1 to 4 keys yields a selection with exactly the original elements (a
permutation); it is the original sequence itself when the key was not
selected, or when the selection had a single element; but when the key was
selected among 2 or more, the key moves to the end (the claim's "same
order" fails there). -/
theorem C9_double_toggle_permutation (s : List MacroKey) (k : MacroKey)
    (h1 : 1 ≤ s.length) (h4 : s.length ≤ 4) (hnd : s.Nodup) :
    (toggleGraphMacro (toggleGraphMacro s k) k).Perm s ∧
    (k ∉ s → toggleGraphMacro (toggleGraphMacro s k) k = s) ∧
    (k ∈ s → s.length = 1 → toggleGraphMacro (toggleGraphMacro s k) k = s) ∧
    (k ∈ s → 2 ≤ s.length →
       toggleGraphMacro (toggleGraphMacro s k) k = s.filter (fun x => x ≠ k) ++ [k]) := by
  by_cases hk : k ∈ s
  · by_cases hl : 1 < s.length
    · have hfl := length_filter_ne s k hnd hk
      have ht1 : toggleGraphMacro s k = s.filter (fun x => x ≠ k) := by
        simp only [toggleGraphMacro, if_pos hk, if_pos hl]
      have hknot := not_mem_filter_ne s k
      have hlen2 : (s.filter (fun x => x ≠ k)).length < 4 := by omega
      have ht2 : toggleGraphMacro (s.filter (fun x => x ≠ k)) k =
          s.filter (fun x => x ≠ k) ++ [k] := by
        simp only [toggleGraphMacro, if_neg hknot, if_pos hlen2]
      rw [ht1, ht2]
      refine ⟨?_, fun hk2 => absurd hk hk2, fun _ hlen => by exfalso; omega, fun _ _ => rfl⟩
      exact (List.perm_append_singleton k _).trans (perm_cons_filter_ne s k hnd hk).symm
    · have ht1 : toggleGraphMacro s k = s := by
        simp only [toggleGraphMacro, if_pos hk, if_neg hl]
      rw [ht1, ht1]
      exact ⟨List.Perm.refl s, fun hk2 => absurd hk hk2, fun _ _ => rfl,
        fun _ hlen => by exfalso; omega⟩
  · by_cases hl : s.length < 4
    · have ht1 : toggleGraphMacro s k = s ++ [k] := by
        simp only [toggleGraphMacro, if_neg hk, if_pos hl]
      have hkmem : k ∈ s ++ [k] := by simp
      have hlen : 1 < (s ++ [k]).length := by
        simp only [List.length_append, List.length_singleton]
        omega
      have ht2 : toggleGraphMacro (s ++ [k]) k = (s ++ [k]).filter (fun x => x ≠ k) := by
        simp only [toggleGraphMacro, if_pos hkmem, if_pos hlen]
      have hfe : (s ++ [k]).filter (fun x => x ≠ k) = s := by
        rw [List.filter_append, filter_ne_eq_self s k hk]
        simp
      rw [ht1, ht2, hfe]
      exact ⟨List.Perm.refl s, fun _ => rfl, fun hk2 _ => absurd hk2 hk,
        fun hk2 _ => absurd hk2 hk⟩
    · have ht1 : toggleGraphMacro s k = s := by
        simp only [toggleGraphMacro, if_neg hk, if_neg hl]
      rw [ht1, ht1]
      exact ⟨List.Perm.refl s, fun _ => rfl, fun hk2 _ => absurd hk2 hk,
        fun hk2 _ => absurd hk2 hk⟩

/-- Witness for C9 at the selection [calories, protein] and key calories. -/
theorem C9_double_toggle_permutation_witness :
    (toggleGraphMacro (toggleGraphMacro [MacroKey.calories, MacroKey.protein]
        MacroKey.calories) MacroKey.calories).Perm
      [MacroKey.calories, MacroKey.protein] :=
  (C9_double_toggle_permutation [MacroKey.calories, MacroKey.protein] MacroKey.calories
    (by decide) (by decide) (by decide)).1

/-- Counterexample to C9 as stated: on the selection [calories, protein],
toggling calories twice yields [protein, calories] — the same elements but
not the same order, so the original selection is not returned. -/
theorem C9_double_toggle_changes_order :
    toggleGraphMacro (toggleGraphMacro [MacroKey.calories, MacroKey.protein]
        MacroKey.calories) MacroKey.calories ≠
      [MacroKey.calories, MacroKey.protein] := by decide

/-! ### Entry upsert and favorite instantiation -/

theorem applySave_nodup {α : Type} (getId : α → String) (coll : List α) (op : SaveOp α)
    (h : (coll.map getId).Nodup)
    (hop : ∀ e, op = SaveOp.create e → ∀ x ∈ coll, getId x ≠ getId e) :
    ((applySave getId coll op).map getId).Nodup := by
  cases op with
  | create e =>
    simp only [applySave, List.map_append, List.map_cons, List.map_nil]
    rw [List.nodup_append]
    refine ⟨h, List.nodup_singleton _, ?_⟩
    intro x hx hx1
    rcases List.mem_map.mp hx with ⟨y, hy, rfl⟩
    rcases List.mem_singleton.mp hx1 with h1
    exact hop e rfl y hy h1
  | edit e =>
    have hsame : (coll.map (fun x => if getId x = getId e then e else x)).map getId =
        coll.map getId := by
      rw [List.map_map]
      apply List.map_congr_left
      intro x _
      by_cases hcase : getId x = getId e
      · simp [hcase]
      · simp [hcase]
    simp only [applySave]
    rw [hsame]
    exact h

/-- With genuinely fresh identities on every create-save, a whole run of
save operations keeps the collection duplicate-free by identity (C3's
intended behaviour; the favorite-instantiation path violates the
freshness premise, see the C3 record). -/
theorem applySaves_nodup {α : Type} (getId : α → String) (coll : List α)
    (ops : List (SaveOp α)) (h : (coll.map getId).Nodup)
    (hf : FreshAlong getId coll ops) :
    ((applySaves getId coll ops).map getId).Nodup := by
  induction ops generalizing coll with
  | nil => simpa [applySaves]
  | cons op rest ih =>
    simp only [FreshAlong] at hf
    obtain ⟨h1, h2⟩ := hf
    have hstep : ((applySave getId coll op).map getId).Nodup := by
      apply applySave_nodup getId coll op h
      intro e he x hx
      subst he
      exact h1 x hx
    have hres := ih (applySave getId coll op) hstep h2
    simpa [applySaves, List.foldl_cons] using hres

/-- Claim C2 failing-input evaluation: instantiating from the favorite with
id "fav-1" (target date 2024-01-02, generated id "abc1234", timestamp 222)
yields an entry whose id is the favorite's own "fav-1", not the freshly
generated distinct identity — the `...previewResult.macros` spread comes
after the id key and overrides it.  The date does come out as the target
date. -/
theorem C2_instantiate_copies_favorite_id :
    (instantiateFromFavorite appleFav (some "2024-01-02") "abc1234" 222 "2024-01-05").id =
      "fav-1" ∧
    (instantiateFromFavorite appleFav (some "2024-01-02") "abc1234" 222 "2024-01-05").date =
      "2024-01-02" ∧
    ("fav-1" : String) ≠ "abc1234" :=
  ⟨rfl, rfl, by decide⟩

/-- Claim C3 failing-input evaluation: create-saving two entries
instantiated from the same favorite (on two different dates, with two
distinct generated ids) leaves the food collection with two records whose
identity is the same "fav-1". -/
theorem C3_favorite_saves_duplicate_identity :
    ¬ ((applySaves FoodEntry.id []
        [SaveOp.create (instantiateFromFavorite appleFav (some "2024-01-02") "g1" 222
           "2024-01-05"),
         SaveOp.create (instantiateFromFavorite appleFav (some "2024-01-03") "g2" 333
           "2024-01-05")]).map FoodEntry.id).Nodup := by decide

/-! ### Date navigator -/

theorem daysInMonth_bounds (y : Int) (m : Nat) :
    28 ≤ daysInMonth y m ∧ daysInMonth y m ≤ 31 := by
  unfold daysInMonth
  split_ifs <;> omega

theorem daysInMonth_december (y : Int) : daysInMonth y 12 = 31 := rfl

theorem daysInMonth_january (y : Int) : daysInMonth y 1 = 31 := rfl

theorem setDateAdd_zero (c : YMD) (h : ValidYMD c) : setDateAdd c 0 = c := by
  obtain ⟨y, m, d⟩ := c
  simp only [ValidYMD] at h
  obtain ⟨hm1, hm2, hd1, hd2⟩ := h
  simp only [setDateAdd]
  rw [if_neg (by omega), if_neg (by omega)]
  have hd : ((d : Int) + 0).toNat = d := by omega
  rw [hd]

theorem setDateAdd_valid (c : YMD) (h : ValidYMD c) (i : Int)
    (hi1 : -2 ≤ i) (hi2 : i ≤ 2) : ValidYMD (setDateAdd c i) := by
  obtain ⟨y, m, d⟩ := c
  simp only [ValidYMD] at h
  obtain ⟨hm1, hm2, hd1, hd2⟩ := h
  have hb := daysInMonth_bounds y m
  have hbP := daysInMonth_bounds y (m - 1)
  have hbN := daysInMonth_bounds y (m + 1)
  have h12 := daysInMonth_december (y - 1)
  have h1N := daysInMonth_january (y + 1)
  simp only [setDateAdd]
  split_ifs <;> (simp only [ValidYMD]; refine ⟨by omega, by omega, by omega, by omega⟩)

theorem setDateAdd_succ (c : YMD) (h : ValidYMD c) (i : Int)
    (hi1 : -2 ≤ i) (hi2 : i ≤ 1) :
    setDateAdd c (i + 1) = nextDay (setDateAdd c i) := by
  obtain ⟨y, m, d⟩ := c
  simp only [ValidYMD] at h
  obtain ⟨hm1, hm2, hd1, hd2⟩ := h
  have hb := daysInMonth_bounds y m
  have hbP := daysInMonth_bounds y (m - 1)
  have hbN := daysInMonth_bounds y (m + 1)
  have h12 := daysInMonth_december (y - 1)
  have h1N := daysInMonth_january (y + 1)
  simp only [setDateAdd]
  split_ifs <;> simp only [nextDay] <;> split_ifs <;>
    first
    | rfl
    | (exfalso; omega)
    | (simp only [YMD.mk.injEq, true_and, and_true]; omega)

theorem dateWindow_length (c : YMD) : (dateWindow c).length = 5 := by
  unfold dateWindow
  rw [List.length_map, List.length_range]

theorem dateWindow_get (c : YMD) (k : Nat) (hk : k < (dateWindow c).length) :
    (dateWindow c).get ⟨k, hk⟩ = getLocalYMD (setDateAdd c ((k : Int) - 2)) := by
  have hk5 : k < 5 := by
    rw [dateWindow_length c] at hk
    exact hk
  unfold dateWindow
  rw [List.get_eq_getElem]
  rw [List.getElem_map]
  rw [List.getElem_range]

/-- Claim C7: for every valid calendar date, the 5-day window is a
sequence of exactly 5 calendar-day strings; its element at index 2 is the
center date's string; element k is the string of the (valid) date k-2
calendar days away; and each successive underlying date is exactly the
calendar-day successor of the previous one, which makes the steps correct
across month and year boundaries. -/
theorem C7_dateWindow_centered (c : YMD) (h : ValidYMD c) :
    (dateWindow c).length = 5 ∧
    (dateWindow c).get ⟨2, by rw [dateWindow_length c]; omega⟩ = getLocalYMD c ∧
    (∀ (k : Nat) (hk : k < (dateWindow c).length),
       (dateWindow c).get ⟨k, hk⟩ = getLocalYMD (setDateAdd c ((k : Int) - 2)) ∧
       ValidYMD (setDateAdd c ((k : Int) - 2))) ∧
    (∀ k : Nat, k < 4 →
       setDateAdd c ((k : Int) - 1) = nextDay (setDateAdd c ((k : Int) - 2))) := by
  refine ⟨dateWindow_length c, ?_, ?_, ?_⟩
  · rw [dateWindow_get c 2 (by rw [dateWindow_length c]; omega)]
    have h0 : ((2 : Nat) : Int) - 2 = 0 := by norm_num
    rw [h0, setDateAdd_zero c h]
  · intro k hk
    have hk5 : k < 5 := by
      rw [dateWindow_length c] at hk
      exact hk
    exact ⟨dateWindow_get c k hk,
      setDateAdd_valid c h ((k : Int) - 2) (by omega) (by omega)⟩
  · intro k hk
    have hstep := setDateAdd_succ c h ((k : Int) - 2) (by omega) (by omega)
    have harith : (k : Int) - 2 + 1 = (k : Int) - 1 := by ring
    rw [harith] at hstep
    exact hstep

/-- Witness for C7 centered on 2023-02-28, the last day of February in a
non-leap year (the spec's own boundary example). -/
theorem C7_dateWindow_centered_witness :
    ValidYMD (⟨2023, 2, 28⟩ : YMD) ∧
    (dateWindow ⟨2023, 2, 28⟩).length = 5 ∧
    setDateAdd ⟨2023, 2, 28⟩ 1 = nextDay (⟨2023, 2, 28⟩ : YMD) := by
  have h : ValidYMD (⟨2023, 2, 28⟩ : YMD) := by decide
  have hthm := C7_dateWindow_centered ⟨2023, 2, 28⟩ h
  refine ⟨h, hthm.1, ?_⟩
  have hstep := hthm.2.2.2 2 (by omega)
  have h3 : ((2 : Nat) : Int) - 1 = 1 := by norm_num
  have h4 : ((2 : Nat) : Int) - 2 = 0 := by norm_num
  rw [h3, h4] at hstep
  rw [setDateAdd_zero _ h] at hstep
  exact hstep
